import Mathlib

/-!
Verification development for the autonomous-researcher viewer components.

The development shallowly embeds the two viewer source files:

* `frontend/src/components/FindingsRail.tsx` — the insight rail projection
  (`FindingsRail`) and the chart projector (`MiniChart`);
* `frontend/src/components/StreamingMarkdown.tsx` — the streaming text
  presenter (`StreamingMarkdown`).

JavaScript numbers that flow through the chart projector are modelled as
rationals together with the three non-finite values (`NaN`, `±Infinity`),
which is what `Number.isFinite` distinguishes.  `Array.prototype.sort`
with the comparator `(a, b) => b.timestamp - a.timestamp` is a stable sort
by timestamp descending; every stable sort agrees on such a total preorder,
so it is embedded as `List.insertionSort` (which is stable) by that order.
-/

namespace AutoResearcher

/-- A JavaScript `number` as classified by `Number.isFinite`. -/
inductive JSNum where
  | nan : JSNum
  | posInf : JSNum
  | negInf : JSNum
  | finite : ℚ → JSNum
deriving DecidableEq

/-- `Number.isFinite`. -/
def JSNum.isFinite : JSNum → Bool
  | .finite _ => true
  | _ => false

/-- `series.values.map((v) => Number(v)).filter((v) => Number.isFinite(v))`:
`Number` is the identity on numbers, so this keeps exactly the finite values. -/
def finiteValues (vs : List JSNum) : List ℚ :=
  vs.filterMap (fun v => match v with | .finite q => some q | _ => none)

/-- `ChartSpec.type` is `"line" | "bar"`. -/
inductive ChartType where
  | line : ChartType
  | bar : ChartType
deriving DecidableEq

/-- One entry of `ChartSpec.series`. -/
structure SeriesSpec where
  name : Option String
  values : List JSNum
deriving DecidableEq

/-- `ChartSpec` from `lib/api`. -/
structure ChartSpec where
  title : Option String
  ctype : ChartType
  labels : Option (List String)
  series : List SeriesSpec
deriving DecidableEq

/-- `width` in `MiniChart`. -/
def chartWidth : ℚ := 260

/-- `height` in `MiniChart`. -/
def chartHeight : ℚ := 140

/-- `padding.top`. -/
def padTop : ℚ := 14

/-- `padding.right`. -/
def padRight : ℚ := 10

/-- `padding.bottom`. -/
def padBottom : ℚ := 28

/-- `padding.left`. -/
def padLeftQ : ℚ := 46

/-- `innerWidth = width - padding.left - padding.right`. -/
def innerWidth : ℚ := chartWidth - padLeftQ - padRight

/-- `innerHeight = height - padding.top - padding.bottom`. -/
def innerHeight : ℚ := chartHeight - padTop - padBottom

/-- Binary minimum on ℚ, written out so that it evaluates by kernel
reduction (it agrees with `min`, see `qmin_eq_min`). -/
def qmin (a b : ℚ) : ℚ := if a ≤ b then a else b

/-- Binary maximum on ℚ (agrees with `max`, see `qmax_eq_max`). -/
def qmax (a b : ℚ) : ℚ := if a ≤ b then b else a

/-- `Math.min(...values)` over a non-empty list (`0` as a junk value for `[]`,
never used: `MiniChart` bails out before taking the min of an empty list). -/
def listMinQ : List ℚ → ℚ
  | [] => 0
  | x :: xs => xs.foldl qmin x

/-- `Math.max(...values)` over a non-empty list (junk `0` for `[]`). -/
def listMaxQ : List ℚ → ℚ
  | [] => 0
  | x :: xs => xs.foldl qmax x

/-- `const span = max - min || 1;` — `0` is falsy, so a zero span becomes `1`. -/
def spanOf (vmin vmax : ℚ) : ℚ :=
  if vmax - vmin = 0 then 1 else vmax - vmin

/-- The x coordinate used for point `i` of `n`:
`padding.left + (i / Math.max(n - 1, 1)) * innerWidth`. -/
def xPos (n i : ℕ) : ℚ :=
  padLeftQ + ((i : ℚ) / ((max (n - 1) 1 : ℕ) : ℚ)) * innerWidth

/-- The y coordinate of value `v`:
`padding.top + (1 - (v - min) / span) * innerHeight`. -/
def yPos (vmin span v : ℚ) : ℚ :=
  padTop + (1 - (v - vmin) / span) * innerHeight

/-- JavaScript `s || d` on strings: the empty string is falsy. -/
def jsStrOr (s : Option String) (d : String) : String :=
  match s with
  | some t => if t = "" then d else t
  | none => d

/-- The fallback x labels `values.map((_, idx) => String(idx + 1))`. -/
def ordinalLabels (n : ℕ) : List String :=
  (List.range n).map (fun i => toString (i + 1))

/-- One point of the polyline. -/
structure Pt where
  x : ℚ
  y : ℚ
deriving DecidableEq

/-- One x-axis tick: index into the labels, the label, and its x position. -/
structure XTick where
  idx : ℕ
  label : String
  x : ℚ
deriving DecidableEq

/-- One y-axis tick: the value later formatted by `formatNumber`, and its y. -/
structure YTick where
  value : ℚ
  y : ℚ
deriving DecidableEq

/-- One bar of the bar layout: centre x, top y, width and height. -/
structure BarRect where
  x : ℚ
  y : ℚ
  w : ℚ
  h : ℚ
deriving DecidableEq

/-- `Math.ceil(n / maxTicks)` for naturals: `⌈n/4⌉ = (n + 3) / 4`. -/
def ceilDiv4 (n : ℕ) : ℕ := (n + 3) / 4

/-- `const step = Math.max(1, Math.ceil(xLabels.length / maxTicks))`. -/
def tickStep (n : ℕ) : ℕ := max 1 (ceilDiv4 n)

/-- The number of loop iterations `for (let i = 0; i < n; i += step)`. -/
def stridedCount (n step : ℕ) : ℕ := (n + step - 1) / step

/-- The ticks pushed by the `for` loop: one tick per index `0, s, 2s, ...`
below `n`. -/
def stridedBase (xs : List String) : List XTick :=
  (List.range (stridedCount xs.length (tickStep xs.length))).map
    (fun j => XTick.mk (j * tickStep xs.length)
      (xs.getD (j * tickStep xs.length) "")
      (xPos xs.length (j * tickStep xs.length)))

/-- The x ticks of `MiniChart`: the strided sweep over the labels, and then
the last label appended whenever the sweep did not already end on it. -/
def xTicksOf (xs : List String) : List XTick :=
  if ((stridedBase xs).getLast?.map XTick.idx) = some (xs.length - 1) then stridedBase xs
  else stridedBase xs ++
    [XTick.mk (xs.length - 1) (xs.getD (xs.length - 1) "") (xPos xs.length (xs.length - 1))]

/-- The y ticks `[0, 0.5, 1].map(...)`. -/
def yTicksOf (vmin span : ℚ) : List YTick :=
  [0, 1/2, 1].map (fun t => YTick.mk (vmin + span * t) (padTop + (1 - t) * innerHeight))

/-- Everything `MiniChart` computes from a `ChartSpec` before handing it to
the renderer.  Bar rectangles are a pure function of the same data, so they
are recorded unconditionally; `isBar` tells which layout is drawn. -/
structure ChartView where
  title : String
  seriesName : String
  values : List ℚ
  vmin : ℚ
  vmax : ℚ
  span : ℚ
  pts : List Pt
  xLabels : List String
  xTicks : List XTick
  yTicks : List YTick
  isBar : Bool
  barRects : List BarRect
deriving DecidableEq

/-- The view `MiniChart` builds once it has committed to drawing:
all the `const` bindings of the component body. -/
def buildView (chart : ChartSpec) (sr : SeriesSpec) : ChartView :=
  let values := finiteValues sr.values
  let vmin := listMinQ values
  let vmax := listMaxQ values
  let span := spanOf vmin vmax
  let n := values.length
  let pts := (List.range n).map
    (fun i => Pt.mk (xPos n i) (yPos vmin span (values.getD i 0)))
  let xs :=
    match chart.labels with
    | some ls => if ls.length = values.length then ls else ordinalLabels values.length
    | none => ordinalLabels values.length
  let barW := innerWidth / qmax ((n : ℚ) * (7/5)) 1
  let rects := (List.range n).map
    (fun i =>
      BarRect.mk (padLeftQ + (Nat.cast i : ℚ) * (innerWidth / ((max (n - 1) 1 : ℕ) : ℚ)))
        (yPos vmin span (values.getD i 0)) barW
        (chartHeight - padBottom - yPos vmin span (values.getD i 0)))
  { title := jsStrOr chart.title "Signal"
    seriesName := jsStrOr sr.name "metric"
    values := values
    vmin := vmin
    vmax := vmax
    span := span
    pts := pts
    xLabels := xs
    xTicks := xTicksOf xs
    yTicks := yTicksOf vmin span
    isBar := match chart.ctype with | .bar => true | .line => false
    barRects := rects }

/-- `MiniChart`: `return null` when there is no first series, when its
`values` array is empty, or when no finite value remains after filtering;
otherwise the drawn view. -/
def miniChart (chart : ChartSpec) : Option ChartView :=
  match chart.series.head? with
  | none => none
  | some sr =>
    if sr.values.length = 0 then none
    else if (finiteValues sr.values).length = 0 then none
    else some (buildView chart sr)

/-- ECMAScript rounding for `toFixed`/`toPrecision`: the integer closest to
`q`, ties resolved to the larger integer — i.e. `⌊q + 1/2⌋`. -/
def roundHalfUp (q : ℚ) : ℤ := ⌊q + 1/2⌋

/-- Left-pad a digit string with zeros to length `d`. -/
def zeroPad (d : ℕ) (s : String) : String :=
  String.mk (List.replicate (d - s.length) '0') ++ s

/-- `Number.prototype.toFixed(d)` on a rational: sign, then the rounded
magnitude with exactly `d` fractional digits. -/
def toFixedQ (d : ℕ) (v : ℚ) : String :=
  if d = 0 then
    (if v < 0 then "-" else "") ++ toString (roundHalfUp (|v| * (10 : ℚ) ^ d)).toNat
  else
    (if v < 0 then "-" else "") ++
      toString ((roundHalfUp (|v| * (10 : ℚ) ^ d)).toNat / 10 ^ d) ++ "." ++
      zeroPad d (toString ((roundHalfUp (|v| * (10 : ℚ) ^ d)).toNat % 10 ^ d))

/-- Least `k` with `1 ≤ a * 10 ^ k`, for `0 < a < 1`; `a.den` always works
as a bound because `10 ^ a.den ≥ a.den ≥ den / num`. -/
def clog10up (a : ℚ) : ℕ :=
  (((List.range (a.den + 1)).find? (fun k => 1 ≤ a * (10 : ℚ) ^ k)).getD 0)

/-- The base-10 exponent of `a > 0`: the `e : ℤ` with `10 ^ e ≤ a < 10 ^ (e+1)`. -/
def exp10 (a : ℚ) : ℤ :=
  if a < 1 then -(clog10up a : ℤ) else (Nat.log 10 (Int.toNat ⌊a⌋) : ℤ)

/-- `Number.prototype.toPrecision(2)` on a rational, following ECMA-262:
a two-digit mantissa `n` with `10 ≤ n < 100` and exponent `e`; exponential
notation when `e < -6` or `e ≥ 2`, fixed notation otherwise. -/
def toPrecision2 (v : ℚ) : String :=
  if v = 0 then "0.0"
  else
    let sign := if v < 0 then "-" else ""
    let a := |v|
    let e0 := exp10 a
    let n0 := (roundHalfUp (a / (10 : ℚ) ^ (e0 - 1))).toNat
    let n := if n0 = 100 then 10 else n0
    let e := if n0 = 100 then e0 + 1 else e0
    if e < -6 ∨ 2 ≤ e then
      sign ++ toString (n / 10) ++ "." ++ toString (n % 10) ++ "e" ++
        (if 0 ≤ e then "+" else "-") ++ toString e.natAbs
    else if e = 1 then sign ++ toString n
    else if e = 0 then sign ++ toString (n / 10) ++ "." ++ toString (n % 10)
    else sign ++ "0." ++ String.mk (List.replicate (-(e + 1)).toNat '0') ++ toString n

/-- `formatNumber` from `MiniChart` (used on the y-tick values);
`abs = Math.abs(val)` is inlined. -/
def formatNumber (val : ℚ) : String :=
  if |val| ≥ 1000000000 then toFixedQ 1 (val / 1000000000) ++ "b"
  else if |val| ≥ 1000000 then toFixedQ 1 (val / 1000000) ++ "m"
  else if |val| ≥ 1000 then toFixedQ 1 (val / 1000) ++ "k"
  else if |val| ≥ 100 then toFixedQ 0 val
  else if |val| ≥ 1 then toFixedQ 2 val
  else toPrecision2 val

/-! ## FindingsRail -/

/-- An insight event payload (`AgentInsight` from `lib/useExperiment`): the
spec's insight is `{runId, seq, id, summary, timestamp, chart?}`. -/
structure AgentInsight where
  id : String
  runId : String
  seq : ℕ
  summary : String
  timestamp : ℤ
  chart : Option ChartSpec
deriving DecidableEq

/-- The per-agent snapshot fields `FindingsRail` reads. -/
structure AgentState where
  id : String
  gpu : Option String
  insights : List AgentInsight
deriving DecidableEq

/-- `InsightWithAgent = AgentInsight & { agentId, gpu? }` (the object spread
`{ ...insight, agentId: agent.id, gpu: agent.gpu }`). -/
structure InsightWithAgent where
  insight : AgentInsight
  agentId : String
  gpu : Option String
deriving DecidableEq

/-- `Object.values(agents).flatMap(...)`: the agents record is embedded as
the list of its values in iteration order. -/
def flattenInsights (agents : List AgentState) : List InsightWithAgent :=
  agents.flatMap (fun a => a.insights.map (fun i => InsightWithAgent.mk i a.id a.gpu))

/-- The order imposed by the comparator `(a, b) => b.timestamp - a.timestamp`:
`p` may come at or before `q` iff `q.timestamp ≤ p.timestamp`. -/
def tsGE (p q : InsightWithAgent) : Prop :=
  q.insight.timestamp ≤ p.insight.timestamp

instance : DecidableRel tsGE :=
  fun p q => inferInstanceAs (Decidable (q.insight.timestamp ≤ p.insight.timestamp))

instance : IsTotal InsightWithAgent tsGE :=
  ⟨fun p q => (le_total p.insight.timestamp q.insight.timestamp).symm⟩

instance : IsTrans InsightWithAgent tsGE :=
  ⟨fun _ _ _ h1 h2 => le_trans h2 h1⟩

/-- `.sort((a, b) => b.timestamp - a.timestamp)`: a stable sort by timestamp
descending (embedded as insertion sort, which is stable; all stable sorts
agree on a total preorder). -/
def sortTsDesc (l : List InsightWithAgent) : List InsightWithAgent :=
  l.insertionSort tsGE

/-- The insight list `FindingsRail` computes: flatten, sort by timestamp
descending, and `.slice(0, 24)`. -/
def findingsRailInsights (agents : List AgentState) : List InsightWithAgent :=
  (sortTsDesc (flattenInsights agents)).take 24

/-- The rendered rail. -/
structure RailView where
  items : List InsightWithAgent
deriving DecidableEq

/-- `FindingsRail` renders the `<aside>` shell only behind
`insights.length > 0 && ...`; otherwise nothing at all is produced. -/
def findingsRailView (agents : List AgentState) : Option RailView :=
  let ins := findingsRailInsights agents
  if 0 < ins.length then some ⟨ins⟩ else none

/-! ## StreamingMarkdown -/

/-- `animateKey?: string | number`. -/
inductive AnimKey where
  | str : String → AnimKey
  | num : ℤ → AnimKey
deriving DecidableEq

/-- One render of the component: its `animateKey` and `content` props. -/
structure SMUpdate where
  animateKey : Option AnimKey
  content : String
deriving DecidableEq

/-- The mutable refs of `StreamingMarkdown`: `animatedRef`, `prevKeyRef`,
`prevContentRef`. -/
structure SMState where
  animated : Bool
  prevKey : Option AnimKey
  prevContent : String
deriving DecidableEq

/-- Ref initial values on mount: `false`, `null`, `""`. -/
def smInit : SMState := ⟨false, none, ""⟩

/-- One run of the `useEffect` body for a render with props `u`; the `Bool`
is whether the appearance signal (`setIsUpdating(true)`) fired. -/
def smStep (s : SMState) (u : SMUpdate) : SMState × Bool :=
  let key := u.animateKey.getD (AnimKey.str u.content)
  let animated0 := if s.prevKey = some key then s.animated else false
  let hadContent := decide (0 < s.prevContent.length)
  let hasContent := decide (0 < u.content.length)
  let fires := !animated0 && hasContent && !hadContent
  (⟨animated0 || fires, some key, u.content⟩, fires)

/-- Fold a sequence of renders through the effect, collecting the fires. -/
def smRun : SMState → List SMUpdate → List Bool
  | _, [] => []
  | s, u :: us =>
    let r := smStep s u
    r.2 :: smRun r.1 us

/-- The fire sequence of a freshly mounted component. -/
def smFires (us : List SMUpdate) : List Bool := smRun smInit us

/-- The key under which a render is identified: `animateKey ?? content`. -/
def keyOf (u : SMUpdate) : AnimKey := u.animateKey.getD (AnimKey.str u.content)

/-- The content rendered just before update `i` (the empty string before the
first update — `prevContentRef` starts as `""`). -/
def prevContentAt (us : List SMUpdate) : ℕ → String
  | 0 => ""
  | j + 1 => (us.getD j ⟨none, ""⟩).content

/-- The signal pattern claimed for a single identity: `true` exactly at the
first update whose content is non-empty. -/
def firstContentSignal : List String → List Bool
  | [] => []
  | c :: cs =>
    if 0 < c.length then true :: cs.map (fun _ => false)
    else false :: firstContentSignal cs

/-- Modelled from the claim's words (for refutation): the appearance signal
fires exactly at the first update where an identity's text is non-empty —
at every position, the signal is `true` iff the content there is non-empty
and every earlier update under the same key had empty content. -/
def claimC2Holds (us : List SMUpdate) : Prop :=
  ∀ i, i < us.length →
    ((smFires us).getD i false = true ↔
      (0 < (us.getD i ⟨none, ""⟩).content.length ∧
        ∀ j, j < i → keyOf (us.getD j ⟨none, ""⟩) = keyOf (us.getD i ⟨none, ""⟩) →
          (us.getD j ⟨none, ""⟩).content.length = 0))

instance (us : List SMUpdate) : Decidable (claimC2Holds us) := by
  unfold claimC2Holds
  infer_instance

/-- Modelled from the claim's words (for refutation): the tie-breaking order
C1 asserts — strictly sorted by `timestamp` descending, ties broken by
`(runId, seq)` descending. -/
def claimedBefore (p q : InsightWithAgent) : Prop :=
  q.insight.timestamp < p.insight.timestamp ∨
    (q.insight.timestamp = p.insight.timestamp ∧
      (q.insight.runId < p.insight.runId ∨
        (q.insight.runId = p.insight.runId ∧ q.insight.seq < p.insight.seq)))

instance : DecidableRel claimedBefore := by
  unfold claimedBefore
  infer_instance

/-! ## Concrete inputs used by witnesses and counterexamples -/

/-- A one-insight agent with the given id (also used as `runId`) and timestamp. -/
def mkAgent (aid : String) (ts : ℤ) : AgentState :=
  ⟨aid, none, [⟨"i" ++ aid, aid, 0, "s", ts, none⟩]⟩

/-- Two agents whose single insights share the timestamp 100. -/
def exTieAgents : List AgentState := [mkAgent "a" 100, mkAgent "b" 100]

/-- Four agents with insight timestamps 100, 50, 300, 200. -/
def exRailAgents : List AgentState :=
  [mkAgent "w" 100, mkAgent "x" 50, mkAgent "y" 300, mkAgent "z" 200]

/-- A series of three equal values 5. -/
def exSeries3 : SeriesSpec := ⟨some "m", [.finite 5, .finite 5, .finite 5]⟩

/-- The `[5,5,5]` chart of the span-floor property. -/
def exChart3 : ChartSpec := ⟨some "t", .line, none, [exSeries3]⟩

/-- The view drawn for `exChart3`. -/
def exView3 : ChartView := buildView exChart3 exSeries3

/-- A chart whose only value is non-finite. -/
def exChart4 : ChartSpec := ⟨none, .line, none, [⟨none, [.nan]⟩]⟩

/-- Labels `["x"]` with values `[1, NaN]`: shorter than the raw values but
matching the filtered values. -/
def exChart5 : ChartSpec := ⟨none, .line, some ["x"], [⟨none, [.finite 1, .nan]⟩]⟩

/-- Series used by `exChart5w`. -/
def exSeries5w : SeriesSpec := ⟨none, [.finite 1, .finite 2, .finite 3]⟩

/-- All-finite values with labels shorter than the values. -/
def exChart5w : ChartSpec := ⟨none, .line, some ["a", "b"], [exSeries5w]⟩

/-- The view drawn for `exChart5w`. -/
def exView5w : ChartView := buildView exChart5w exSeries5w

/-- A six-value series: its tick stride is `ceil(6/4) = 2`. -/
def exSeries6 : SeriesSpec :=
  ⟨none, [.finite 1, .finite 2, .finite 3, .finite 4, .finite 5, .finite 6]⟩

/-- Chart for the tick-structure witness. -/
def exChart6 : ChartSpec := ⟨none, .line, none, [exSeries6]⟩

/-- The view drawn for `exChart6`. -/
def exView6 : ChartView := buildView exChart6 exSeries6

/-- First series shared by the two C7 charts. -/
def exSeries7 : SeriesSpec := ⟨some "s0", [.finite 1, .finite 2]⟩

/-- A chart with a single series. -/
def exChart7a : ChartSpec := ⟨some "t", .bar, some ["p", "q"], [exSeries7]⟩

/-- The same chart with an extra second series. -/
def exChart7b : ChartSpec :=
  ⟨some "t", .bar, some ["p", "q"], [exSeries7, ⟨some "s1", [.finite 9, .finite 8, .finite 7]⟩]⟩

/-- Series used by `exChart9`. -/
def exSeries9 : SeriesSpec := ⟨none, [.finite 1, .finite 3]⟩

/-- A two-point chart for the coordinate-bounds witness. -/
def exChart9 : ChartSpec := ⟨none, .line, none, [exSeries9]⟩

/-- The view drawn for `exChart9`. -/
def exView9 : ChartView := buildView exChart9 exSeries9

/-- A single render that brings non-empty content under key `"k"`. -/
def exSMSingle : List SMUpdate := [⟨some (.str "k"), "a"⟩]

/-- Key `"k1"` gets text `"a"`, then key `"k2"` gets its first text `"b"`
while the previously rendered content is still non-empty. -/
def exSMSwitch : List SMUpdate := [⟨some (.str "k1"), "a"⟩, ⟨some (.str "k2"), "b"⟩]

/-! ## Streaming text presenter: helper lemmas -/

theorem smStep_fst_prevContent (s : SMState) (u : SMUpdate) :
    (smStep s u).1.prevContent = u.content := rfl

theorem smStep_fire_inv (s : SMState) (u : SMUpdate) (h : (smStep s u).2 = true) :
    0 < u.content.length ∧ s.prevContent.length = 0 := by
  have h' := h
  unfold smStep at h'
  simp only [Bool.and_eq_true, Bool.not_eq_true'] at h'
  refine ⟨of_decide_eq_true h'.1.2, ?_⟩
  have h2 := of_decide_eq_false h'.2
  omega

/-- Once `animatedRef` is set and the key stays fixed, no update ever fires. -/
theorem smRun_absorbed (k : AnimKey) (pc : String) (cs : List String) :
    smRun ⟨true, some k, pc⟩ (cs.map (fun c => ⟨some k, c⟩)) = cs.map (fun _ => false) := by
  induction cs generalizing pc with
  | nil => rfl
  | cons c cs ih =>
    simp only [List.map_cons, smRun]
    congr 1
    · simp [smStep]
    · have hs : (smStep ⟨true, some k, pc⟩ ⟨some k, c⟩).1 = ⟨true, some k, c⟩ := by
        simp [smStep]
      rw [hs]
      exact ih c

/-- From an un-animated state with empty previous content, a constant-key run
fires exactly at the first non-empty content. -/
theorem smRun_fresh (k : AnimKey) (pk : Option AnimKey) (pc : String)
    (hpc : pc.length = 0) (cs : List String) :
    smRun ⟨false, pk, pc⟩ (cs.map (fun c => ⟨some k, c⟩)) = firstContentSignal cs := by
  induction cs generalizing pk pc with
  | nil => rfl
  | cons c cs ih =>
    simp only [List.map_cons, smRun, firstContentSignal]
    have hstep2 : (smStep ⟨false, pk, pc⟩ ⟨some k, c⟩).2 = decide (0 < c.length) := by
      simp [smStep, hpc]
    have hstep1 : (smStep ⟨false, pk, pc⟩ ⟨some k, c⟩).1 =
        ⟨decide (0 < c.length), some k, c⟩ := by
      simp [smStep, hpc]
    by_cases hc : 0 < c.length
    · rw [if_pos hc]
      congr 1
      · rw [hstep2]
        simp [hc]
      · rw [hstep1, decide_eq_true hc]
        exact smRun_absorbed k c cs
    · rw [if_neg hc]
      congr 1
      · rw [hstep2]
        simp [hc]
      · rw [hstep1, decide_eq_false hc]
        exact ih (some k) c (by omega)

theorem smRun_fire_at (us : List SMUpdate) (s : SMState) (i : ℕ)
    (hi : i < us.length) (hf : (smRun s us).getD i false = true) :
    0 < (us.getD i ⟨none, ""⟩).content.length ∧
      (match i with
        | 0 => s.prevContent
        | j + 1 => (us.getD j ⟨none, ""⟩).content).length = 0 := by
  induction us generalizing s i with
  | nil => exact absurd hi (by simp)
  | cons u us ih =>
    cases i with
    | zero =>
      have h0 : (smStep s u).2 = true := hf
      have := smStep_fire_inv s u h0
      simpa using this
    | succ j =>
      have hj : j < us.length := by simpa using hi
      have hf' : (smRun (smStep s u).1 us).getD j false = true := hf
      have := ih (smStep s u).1 j hj hf'
      cases j with
      | zero =>
        simpa [smStep_fst_prevContent] using this
      | succ j' =>
        simpa using this

/-! ## C2 / C10 theorems -/

/-- C2 counterexample: in the update sequence `exSMSwitch` the second update
is the first (and only) one under key `"k2"` and its content `"b"` is
non-empty, yet the signal does not fire there — `prevContentRef` still holds
`"a"` from key `"k1"`, so an identity whose first text arrives while the
previously rendered content is non-empty never receives its appearance
signal.  The claim's per-identity first-non-empty rule is therefore false. -/
theorem c2_counterexample : ¬ claimC2Holds exSMSwitch := by decide

/-- C2 (amended): for any sequence of updates under one constant identity from
component mount, the appearance signal fires exactly once, at the first update
whose text is non-empty — text `"a"`, `"ab"`, `"abc"` fires only on `"a"`.  A
new identity whose first text arrives while the previously rendered content is
non-empty does not fire (see the counterexample). -/
theorem c2_single_identity_signal (k : AnimKey) (cs : List String) :
    smFires (cs.map (fun c => ⟨some k, c⟩)) = firstContentSignal cs :=
  smRun_fresh k none "" rfl cs

/-- C2 witness: the `"a"`, `"ab"`, `"abc"` sequence fires exactly once, on the
`"a"` transition. -/
theorem c2_witness :
    smFires (["a", "ab", "abc"].map (fun c => ⟨some (.str "t1"), c⟩)) =
      [true, false, false] :=
  (c2_single_identity_signal (.str "t1") ["a", "ab", "abc"]).trans (by decide)

/-- C10: the appearance signal can fire only at an update whose predecessor's
rendered content (the empty string for the very first update) was empty and
whose own content is non-empty, for every sequence of `(key, content)`
updates. -/
theorem c10_fire_requires_empty_prev (us : List SMUpdate) (i : ℕ)
    (hi : i < us.length) (hf : (smFires us).getD i false = true) :
    0 < (us.getD i ⟨none, ""⟩).content.length ∧ (prevContentAt us i).length = 0 := by
  have := smRun_fire_at us smInit i hi hf
  cases i with
  | zero => simpa [prevContentAt, smInit] using this
  | succ j => simpa [prevContentAt] using this

/-- C10 witness: the single-update sequence `exSMSingle` fires at index 0,
where the predecessor content is empty and the content `"a"` is non-empty. -/
theorem c10_witness :
    (0 < exSMSingle.length ∧ (smFires exSMSingle).getD 0 false = true) ∧
      (0 < (exSMSingle.getD 0 ⟨none, ""⟩).content.length ∧
        (prevContentAt exSMSingle 0).length = 0) :=
  ⟨⟨by decide, by decide⟩,
    c10_fire_requires_empty_prev exSMSingle 0 (by decide) (by decide)⟩

/-! ## Findings rail: helper lemmas -/

theorem sortTsDesc_sorted (l : List InsightWithAgent) :
    List.Pairwise tsGE (sortTsDesc l) :=
  List.sorted_insertionSort tsGE l

theorem sortTsDesc_perm (l : List InsightWithAgent) :
    List.Perm (sortTsDesc l) l :=
  List.perm_insertionSort tsGE l

theorem findingsRail_length (agents : List AgentState) :
    (findingsRailInsights agents).length = min 24 (flattenInsights agents).length := by
  unfold findingsRailInsights
  rw [List.length_take, (sortTsDesc_perm (flattenInsights agents)).length_eq]

/-! ## C1 / C8 theorems -/

/-- C1 counterexample: two agents `"a"` and `"b"` hold one insight each with
the same timestamp 100.  The code's comparator looks only at `timestamp`, so
the stable sort keeps the flattening order and the rail lists agent `"a"`
first; the claimed `(runId, seq)`-descending tie-break would list `"b"`
(the larger `runId`) first, so the rail is not sorted by the claimed order. -/
theorem c1_counterexample :
    findingsRailInsights exTieAgents =
      [⟨⟨"ia", "a", 0, "s", 100, none⟩, "a", none⟩,
        ⟨⟨"ib", "b", 0, "s", 100, none⟩, "b", none⟩] ∧
      ¬ claimedBefore
        ⟨⟨"ia", "a", 0, "s", 100, none⟩, "a", none⟩
        ⟨⟨"ib", "b", 0, "s", 100, none⟩, "b", none⟩ := by
  constructor
  · decide
  · intro h
    rcases h with h | ⟨_, h⟩
    · exact absurd h (by decide)
    · rcases h with h | ⟨h, _⟩
      · rw [String.lt_iff_toList_lt] at h
        exact absurd h (by decide)
      · exact absurd h (by decide)

/-- C1 (amended): the rail is the flattened insights of all agents sorted by
`timestamp` descending — stably, so ties keep the flattening order (agents in
map iteration order, each agent's insights in stored order) rather than any
`(runId, seq)` tie-break — capped to the 24 most recent: the result is
pairwise ordered by timestamp, has length `min 24 n`, draws its items from
the flattened insights, and every dropped insight is no newer than every kept
one.  For timestamps `[100, 50, 300, 200]` the rail is `[300, 200, 100, 50]`
(see the witness). -/
theorem c1_rail_sorted_capped (agents : List AgentState) :
    List.Pairwise tsGE (findingsRailInsights agents) ∧
      (findingsRailInsights agents).length = min 24 (flattenInsights agents).length ∧
      (∀ x ∈ findingsRailInsights agents, x ∈ flattenInsights agents) ∧
      (∀ y ∈ (sortTsDesc (flattenInsights agents)).drop 24,
        ∀ x ∈ findingsRailInsights agents, y.insight.timestamp ≤ x.insight.timestamp) := by
  refine ⟨?_, findingsRail_length agents, ?_, ?_⟩
  · exact (sortTsDesc_sorted (flattenInsights agents)).sublist
      (List.take_sublist 24 _)
  · intro x hx
    exact (sortTsDesc_perm (flattenInsights agents)).subset
      ((List.take_sublist 24 _).subset hx)
  · intro y hy x hx
    have hsorted : List.Pairwise tsGE
        ((sortTsDesc (flattenInsights agents)).take 24 ++
          (sortTsDesc (flattenInsights agents)).drop 24) := by
      rw [List.take_append_drop]
      exact sortTsDesc_sorted (flattenInsights agents)
    exact (List.pairwise_append.mp hsorted).2.2 x hx y hy

/-- C1 witness: the four-agent example with timestamps `[100, 50, 300, 200]`
yields the rail `[300, 200, 100, 50]`, pairwise sorted and of capped length. -/
theorem c1_witness :
    ((findingsRailInsights exRailAgents).map (fun i => i.insight.timestamp) =
        [300, 200, 100, 50]) ∧
      List.Pairwise tsGE (findingsRailInsights exRailAgents) ∧
      (findingsRailInsights exRailAgents).length =
        min 24 (flattenInsights exRailAgents).length :=
  ⟨by decide, (c1_rail_sorted_capped exRailAgents).1,
    (c1_rail_sorted_capped exRailAgents).2.1⟩

/-- C8: the rail element exists iff at least one insight exists — with no
insights at all, `FindingsRail` renders nothing (no empty shell). -/
theorem c8_empty_rail (agents : List AgentState) :
    findingsRailView agents = none ↔ flattenInsights agents = [] := by
  have hlen := findingsRail_length agents
  unfold findingsRailView
  by_cases h : 0 < (findingsRailInsights agents).length
  · rw [if_pos h]
    constructor
    · intro hc
      exact absurd hc (by simp)
    · intro hflat
      exfalso
      rw [hflat] at hlen
      simp only [List.length_nil, min_zero] at hlen
      omega
  · rw [if_neg h]
    constructor
    · intro _
      have h2 : (findingsRailInsights agents).length = 0 := by omega
      rw [h2] at hlen
      rcases Nat.min_eq_zero_iff.mp hlen.symm with h24 | hf
      · exact absurd h24 (by decide)
      · exact List.length_eq_zero.mp hf
    · intro _
      rfl

/-- C8 witness: an agent map with insight-free agents produces no rail. -/
theorem c8_witness : findingsRailView [⟨"a", none, []⟩] = none :=
  (c8_empty_rail [⟨"a", none, []⟩]).mpr rfl

/-! ## Chart projector: helper lemmas -/

theorem qmin_eq_min : qmin = (min : ℚ → ℚ → ℚ) := by
  funext a b
  unfold qmin
  rw [min_def]

theorem qmax_eq_max : qmax = (max : ℚ → ℚ → ℚ) := by
  funext a b
  unfold qmax
  rw [max_def]

theorem headSeries_unique (spec : ChartSpec) (sr sr' : SeriesSpec)
    (hs : spec.series.head? = some sr) (hs' : spec.series.head? = some sr') :
    sr' = sr := by
  rw [hs] at hs'
  exact (Option.some_inj.mp hs').symm

theorem miniChart_none (spec : ChartSpec) (hs : spec.series.head? = none) :
    miniChart spec = none := by
  unfold miniChart
  rw [hs]

theorem miniChart_some_head (spec : ChartSpec) (sr : SeriesSpec)
    (hs : spec.series.head? = some sr) :
    miniChart spec =
      if sr.values.length = 0 then none
      else if (finiteValues sr.values).length = 0 then none
      else some (buildView spec sr) := by
  unfold miniChart
  rw [hs]

theorem foldl_min_le_init (l : List ℚ) (x : ℚ) : l.foldl min x ≤ x := by
  induction l generalizing x with
  | nil => simp
  | cons a l ih => exact le_trans (ih (min x a)) (min_le_left x a)

theorem foldl_min_le_mem (l : List ℚ) (x y : ℚ) (hy : y ∈ l) : l.foldl min x ≤ y := by
  induction l generalizing x with
  | nil => exact absurd hy (by simp)
  | cons a l ih =>
    rcases List.mem_cons.mp hy with rfl | hy'
    · exact le_trans (foldl_min_le_init l (min x y)) (min_le_right x y)
    · exact ih (min x a) hy'

theorem foldl_min_mem (l : List ℚ) (x : ℚ) : l.foldl min x = x ∨ l.foldl min x ∈ l := by
  induction l generalizing x with
  | nil => exact Or.inl rfl
  | cons a l ih =>
    rcases ih (min x a) with h | h
    · rcases min_choice x a with hm | hm
      · exact Or.inl (by rw [List.foldl_cons, h, hm])
      · exact Or.inr (by rw [List.foldl_cons, h, hm]; exact List.mem_cons_self a l)
    · exact Or.inr (List.mem_cons_of_mem a h)

theorem foldl_max_init_le (l : List ℚ) (x : ℚ) : x ≤ l.foldl max x := by
  induction l generalizing x with
  | nil => simp
  | cons a l ih => exact le_trans (le_max_left x a) (ih (max x a))

theorem foldl_max_mem_le (l : List ℚ) (x y : ℚ) (hy : y ∈ l) : y ≤ l.foldl max x := by
  induction l generalizing x with
  | nil => exact absurd hy (by simp)
  | cons a l ih =>
    rcases List.mem_cons.mp hy with rfl | hy'
    · exact le_trans (le_max_right x y) (foldl_max_init_le l (max x y))
    · exact ih (max x a) hy'

theorem foldl_max_mem (l : List ℚ) (x : ℚ) : l.foldl max x = x ∨ l.foldl max x ∈ l := by
  induction l generalizing x with
  | nil => exact Or.inl rfl
  | cons a l ih =>
    rcases ih (max x a) with h | h
    · rcases max_choice x a with hm | hm
      · exact Or.inl (by rw [List.foldl_cons, h, hm])
      · exact Or.inr (by rw [List.foldl_cons, h, hm]; exact List.mem_cons_self a l)
    · exact Or.inr (List.mem_cons_of_mem a h)

theorem listMinQ_cons (x : ℚ) (xs : List ℚ) : listMinQ (x :: xs) = xs.foldl min x := by
  unfold listMinQ
  rw [qmin_eq_min]

theorem listMaxQ_cons (x : ℚ) (xs : List ℚ) : listMaxQ (x :: xs) = xs.foldl max x := by
  unfold listMaxQ
  rw [qmax_eq_max]

theorem listMinQ_spec (l : List ℚ) (h : l ≠ []) :
    listMinQ l ∈ l ∧ ∀ v ∈ l, listMinQ l ≤ v := by
  cases l with
  | nil => exact absurd rfl h
  | cons x xs =>
    rw [listMinQ_cons]
    constructor
    · rcases foldl_min_mem xs x with h' | h'
      · rw [h']
        exact List.mem_cons_self x xs
      · exact List.mem_cons_of_mem x h'
    · intro v hv
      rcases List.mem_cons.mp hv with rfl | hv'
      · exact foldl_min_le_init xs v
      · exact foldl_min_le_mem xs x v hv'

theorem listMaxQ_spec (l : List ℚ) (h : l ≠ []) :
    listMaxQ l ∈ l ∧ ∀ v ∈ l, v ≤ listMaxQ l := by
  cases l with
  | nil => exact absurd rfl h
  | cons x xs =>
    rw [listMaxQ_cons]
    constructor
    · rcases foldl_max_mem xs x with h' | h'
      · rw [h']
        exact List.mem_cons_self x xs
      · exact List.mem_cons_of_mem x h'
    · intro v hv
      rcases List.mem_cons.mp hv with rfl | hv'
      · exact foldl_max_init_le xs v
      · exact foldl_max_mem_le xs x v hv'

theorem buildView_values (c : ChartSpec) (sr : SeriesSpec) :
    (buildView c sr).values = finiteValues sr.values := rfl

theorem buildView_vmin (c : ChartSpec) (sr : SeriesSpec) :
    (buildView c sr).vmin = listMinQ (finiteValues sr.values) := rfl

theorem buildView_vmax (c : ChartSpec) (sr : SeriesSpec) :
    (buildView c sr).vmax = listMaxQ (finiteValues sr.values) := rfl

theorem buildView_span (c : ChartSpec) (sr : SeriesSpec) :
    (buildView c sr).span =
      spanOf (listMinQ (finiteValues sr.values)) (listMaxQ (finiteValues sr.values)) := rfl

theorem buildView_pts (c : ChartSpec) (sr : SeriesSpec) :
    (buildView c sr).pts = (List.range (finiteValues sr.values).length).map
      (fun i => Pt.mk (xPos (finiteValues sr.values).length i)
        (yPos (listMinQ (finiteValues sr.values))
          (spanOf (listMinQ (finiteValues sr.values)) (listMaxQ (finiteValues sr.values)))
          ((finiteValues sr.values).getD i 0))) := rfl

theorem buildView_xLabels (c : ChartSpec) (sr : SeriesSpec) :
    (buildView c sr).xLabels =
      match c.labels with
      | some ls =>
        if ls.length = (finiteValues sr.values).length then ls
        else ordinalLabels (finiteValues sr.values).length
      | none => ordinalLabels (finiteValues sr.values).length := rfl

theorem buildView_xLabels_some (c : ChartSpec) (sr : SeriesSpec) (ls : List String)
    (h : c.labels = some ls) :
    (buildView c sr).xLabels =
      if ls.length = (finiteValues sr.values).length then ls
      else ordinalLabels (finiteValues sr.values).length := by
  rw [buildView_xLabels, h]

theorem buildView_xLabels_none (c : ChartSpec) (sr : SeriesSpec)
    (h : c.labels = none) :
    (buildView c sr).xLabels = ordinalLabels (finiteValues sr.values).length := by
  rw [buildView_xLabels, h]

theorem buildView_xTicks (c : ChartSpec) (sr : SeriesSpec) :
    (buildView c sr).xTicks = xTicksOf ((buildView c sr).xLabels) := rfl

theorem buildView_barRects (c : ChartSpec) (sr : SeriesSpec) :
    (buildView c sr).barRects = (List.range (finiteValues sr.values).length).map
      (fun i =>
        BarRect.mk
          (padLeftQ + (Nat.cast i : ℚ) * (innerWidth /
            ((max ((finiteValues sr.values).length - 1) 1 : ℕ) : ℚ)))
          (yPos (listMinQ (finiteValues sr.values))
            (spanOf (listMinQ (finiteValues sr.values)) (listMaxQ (finiteValues sr.values)))
            ((finiteValues sr.values).getD i 0))
          (innerWidth / qmax (((finiteValues sr.values).length : ℚ) * (7/5)) 1)
          (chartHeight - padBottom -
            yPos (listMinQ (finiteValues sr.values))
              (spanOf (listMinQ (finiteValues sr.values)) (listMaxQ (finiteValues sr.values)))
              ((finiteValues sr.values).getD i 0))) := rfl

theorem miniChart_eq_some_iff (spec : ChartSpec) (view : ChartView) :
    miniChart spec = some view ↔
      ∃ sr, spec.series.head? = some sr ∧ sr.values.length ≠ 0 ∧
        (finiteValues sr.values).length ≠ 0 ∧ view = buildView spec sr := by
  constructor
  · intro h
    cases hs : spec.series.head? with
    | none =>
      rw [miniChart_none spec hs] at h
      exact absurd h (by simp)
    | some sr =>
      rw [miniChart_some_head spec sr hs] at h
      by_cases h1 : sr.values.length = 0
      · rw [if_pos h1] at h
        exact absurd h (by simp)
      · rw [if_neg h1] at h
        by_cases h2 : (finiteValues sr.values).length = 0
        · rw [if_pos h2] at h
          exact absurd h (by simp)
        · rw [if_neg h2] at h
          exact ⟨sr, rfl, h1, h2, (Option.some_inj.mp h).symm⟩
  · rintro ⟨sr, hs, h1, h2, rfl⟩
    rw [miniChart_some_head spec sr hs, if_neg h1, if_neg h2]

theorem finiteValues_ne_nil (spec : ChartSpec) (view : ChartView) (sr : SeriesSpec)
    (h : miniChart spec = some view) (hs : spec.series.head? = some sr) :
    finiteValues sr.values ≠ [] := by
  obtain ⟨sr', hs', -, h2, -⟩ := (miniChart_eq_some_iff spec view).mp h
  obtain rfl := headSeries_unique spec sr' sr hs' hs
  intro hnil
  rw [hnil] at h2
  exact h2 rfl

theorem finiteValues_length_of_all (vs : List JSNum)
    (h : vs.all JSNum.isFinite = true) : (finiteValues vs).length = vs.length := by
  induction vs with
  | nil => rfl
  | cons v vs ih =>
    rw [List.all_cons, Bool.and_eq_true] at h
    cases v with
    | finite q =>
      simp only [finiteValues, List.filterMap_cons] at *
      simpa [List.length_cons] using ih h.2
    | nan => exact absurd h.1 (by simp [JSNum.isFinite])
    | posInf => exact absurd h.1 (by simp [JSNum.isFinite])
    | negInf => exact absurd h.1 (by simp [JSNum.isFinite])

/-! ## C3 / C4 / C5 / C7 theorems -/

/-- C3: for a drawn chart, `vmin`/`vmax` are the minimum and maximum of the
filtered values, `span = max - min` whenever they differ and `1` when they
coincide, and the span is always strictly positive — no division by zero.
The `[5, 5, 5]` instance is the witness. -/
theorem c3_span_floor (spec : ChartSpec) (view : ChartView)
    (h : miniChart spec = some view) :
    (view.vmin ∈ view.values ∧ ∀ v ∈ view.values, view.vmin ≤ v) ∧
      (view.vmax ∈ view.values ∧ ∀ v ∈ view.values, v ≤ view.vmax) ∧
      (view.vmax ≠ view.vmin → view.span = view.vmax - view.vmin) ∧
      (view.vmax = view.vmin → view.span = 1) ∧
      0 < view.span := by
  obtain ⟨sr, hs, h1, h2, rfl⟩ := (miniChart_eq_some_iff spec view).mp h
  have hne : finiteValues sr.values ≠ [] := fun hnil => h2 (by rw [hnil]; rfl)
  have hmin := listMinQ_spec (finiteValues sr.values) hne
  have hmax := listMaxQ_spec (finiteValues sr.values) hne
  rw [buildView_values, buildView_vmin, buildView_vmax, buildView_span]
  have hle : listMinQ (finiteValues sr.values) ≤ listMaxQ (finiteValues sr.values) :=
    hmin.2 _ hmax.1
  refine ⟨hmin, hmax, ?_, ?_, ?_⟩
  · intro hneq
    unfold spanOf
    rw [if_neg (sub_ne_zero.mpr hneq)]
  · intro heq
    unfold spanOf
    rw [if_pos (sub_eq_zero.mpr heq)]
  · unfold spanOf
    split_ifs with h0
    · exact one_pos
    · have : listMinQ (finiteValues sr.values) < listMaxQ (finiteValues sr.values) :=
        lt_of_le_of_ne hle (fun hc => h0 (by rw [hc, sub_self]))
      linarith

/-- C3 witness: the `[5, 5, 5]` series yields `span = 1`. -/
theorem c3_witness : miniChart exChart3 = some exView3 ∧ exView3.span = 1 :=
  ⟨rfl, (c3_span_floor exChart3 exView3 rfl).2.2.2.1 (by decide)⟩

/-- C4: the projector yields no chart exactly when the first series is
missing, its `values` array is empty, or no finite value survives the
filter — and when it does draw, it draws the filtered (finite-only) values. -/
theorem c4_no_chart_on_invalid (spec : ChartSpec) :
    (miniChart spec = none ↔
      spec.series.head? = none ∨
        ∃ sr, spec.series.head? = some sr ∧
          (sr.values = [] ∨ finiteValues sr.values = [])) ∧
      (∀ sr view, spec.series.head? = some sr → miniChart spec = some view →
        view.values = finiteValues sr.values) := by
  constructor
  · cases hs : spec.series.head? with
    | none =>
      rw [miniChart_none spec hs]
      constructor
      · intro _
        exact Or.inl rfl
      · intro _
        rfl
    | some sr =>
      rw [miniChart_some_head spec sr hs]
      constructor
      · intro h
        by_cases h1 : sr.values.length = 0
        · exact Or.inr ⟨sr, rfl, Or.inl (List.length_eq_zero.mp h1)⟩
        · by_cases h2 : (finiteValues sr.values).length = 0
          · exact Or.inr ⟨sr, rfl, Or.inr (List.length_eq_zero.mp h2)⟩
          · rw [if_neg h1, if_neg h2] at h
            exact absurd h (by simp)
      · rintro (h | ⟨sr', hsr', hvals⟩)
        · exact absurd h (by simp)
        · have hsr : sr' = sr := (Option.some_inj.mp hsr').symm
          subst hsr
          rcases hvals with hv | hv
          · have h1 : sr'.values.length = 0 := by
              rw [hv]
              rfl
            rw [if_pos h1]
          · by_cases h1 : sr'.values.length = 0
            · rw [if_pos h1]
            · have h2 : (finiteValues sr'.values).length = 0 := by
                rw [hv]
                rfl
              rw [if_neg h1, if_pos h2]
  · intro sr view hs hv
    obtain ⟨sr', hs', -, -, rfl⟩ := (miniChart_eq_some_iff spec view).mp hv
    have hsr : sr' = sr := headSeries_unique spec sr sr' hs hs'
    subst hsr
    exact buildView_values spec sr'

/-- C4 witness: a series whose only value is `NaN` produces no chart. -/
theorem c4_witness : miniChart exChart4 = none :=
  (c4_no_chart_on_invalid exChart4).1.mpr
    (Or.inr ⟨⟨none, [JSNum.nan]⟩, rfl, Or.inr rfl⟩)

/-- C5 counterexample: with values `[1, NaN]` and labels `["x"]`, the labels
are shorter than the series' values (1 < 2), yet the drawn chart uses `["x"]`
— not the ordinal fallback `["1", "2"]` (nor `["1"]`) — because the code
compares the labels' length against the count of finite values, which is 1
here.  The claim's "labels shorter than values ⇒ ordinal labels" is false. -/
theorem c5_counterexample :
    (miniChart exChart5).map ChartView.xLabels = some ["x"] ∧
      some ["x"] ≠ some ["1", "2"] ∧ some ["x"] ≠ some ["1"] := by
  refine ⟨by decide, by decide, by decide⟩

/-- C5 (amended): the spec's `labels` are used iff their length matches the
number of finite values of the first series; otherwise 1-based ordinal labels
are synthesized.  In particular, when every value is finite (so the filtered
length equals the raw length), labels shorter than the values fall back to
`["1", "2", ...]`. -/
theorem c5_label_rule (spec : ChartSpec) (sr : SeriesSpec) (view : ChartView)
    (hv : miniChart spec = some view) (hs : spec.series.head? = some sr) :
    (∀ ls, spec.labels = some ls → ls.length = (finiteValues sr.values).length →
        view.xLabels = ls) ∧
      (∀ ls, spec.labels = some ls → ls.length ≠ (finiteValues sr.values).length →
        view.xLabels = ordinalLabels (finiteValues sr.values).length) ∧
      (spec.labels = none → view.xLabels = ordinalLabels (finiteValues sr.values).length) ∧
      (∀ ls, spec.labels = some ls → sr.values.all JSNum.isFinite = true →
        ls.length < sr.values.length → view.xLabels = ordinalLabels sr.values.length) := by
  obtain ⟨sr', hs', -, -, rfl⟩ := (miniChart_eq_some_iff spec view).mp hv
  have hsr : sr' = sr := headSeries_unique spec sr sr' hs hs'
  subst hsr
  refine ⟨?_, ?_, ?_, ?_⟩
  · intro ls hls hlen
    rw [buildView_xLabels_some spec sr' ls hls]
    exact if_pos hlen
  · intro ls hls hlen
    rw [buildView_xLabels_some spec sr' ls hls]
    exact if_neg hlen
  · intro hnone
    exact buildView_xLabels_none spec sr' hnone
  · intro ls hls hall hlt
    have hfl := finiteValues_length_of_all sr'.values hall
    have hne : ls.length ≠ (finiteValues sr'.values).length := by omega
    rw [buildView_xLabels_some spec sr' ls hls, if_neg hne, hfl]

/-- C5 witness: all-finite values `[1, 2, 3]` with the shorter labels
`["a", "b"]` fall back to the ordinal labels `["1", "2", "3"]`. -/
theorem c5_witness :
    miniChart exChart5w = some exView5w ∧ exView5w.xLabels = ordinalLabels 3 :=
  ⟨rfl,
    (c5_label_rule exChart5w exSeries5w exView5w rfl rfl).2.1
      ["a", "b"] rfl (by decide)⟩

/-- C7: the projector reads only `title`, `type`, `labels` and the first
series of a `ChartSpec`; two specs that agree there — whatever their extra
series — produce identical views. -/
theorem c7_first_series_only (ca cb : ChartSpec) (ht : ca.title = cb.title)
    (hc : ca.ctype = cb.ctype) (hl : ca.labels = cb.labels)
    (hs : ca.series.head? = cb.series.head?) : miniChart ca = miniChart cb := by
  cases hh : cb.series.head? with
  | none => rw [miniChart_none ca (hs.trans hh), miniChart_none cb hh]
  | some sr =>
    rw [miniChart_some_head ca sr (hs.trans hh), miniChart_some_head cb sr hh]
    have hbv : buildView ca sr = buildView cb sr := by
      unfold buildView
      rw [ht, hc, hl]
    rw [hbv]

/-- C7 witness: adding a second series to `exChart7a` leaves the produced
chart unchanged. -/
theorem c7_witness :
    (exChart7a.title = exChart7b.title ∧ exChart7a.ctype = exChart7b.ctype ∧
      exChart7a.labels = exChart7b.labels ∧
      exChart7a.series.head? = exChart7b.series.head? ∧
      exChart7a.series ≠ exChart7b.series) ∧
      miniChart exChart7a = miniChart exChart7b :=
  ⟨⟨rfl, rfl, rfl, rfl, by decide⟩,
    c7_first_series_only exChart7a exChart7b rfl rfl rfl rfl⟩

/-! ## C9: coordinate bounds -/

theorem xPos_bounds (n i : ℕ) (hi : i < n) :
    padLeftQ ≤ xPos n i ∧ xPos n i ≤ chartWidth - padRight := by
  have him : i ≤ max (n - 1) 1 := le_trans (by omega) (le_max_left (n - 1) 1)
  have hm1 : 1 ≤ max (n - 1) 1 := le_max_right (n - 1) 1
  have hmQ : (0 : ℚ) < ((max (n - 1) 1 : ℕ) : ℚ) := by exact_mod_cast hm1
  have ht0 : (0 : ℚ) ≤ (i : ℚ) / ((max (n - 1) 1 : ℕ) : ℚ) :=
    div_nonneg (by positivity) hmQ.le
  have ht1 : (i : ℚ) / ((max (n - 1) 1 : ℕ) : ℚ) ≤ 1 :=
    (div_le_one hmQ).mpr (by exact_mod_cast him)
  unfold xPos innerWidth chartWidth padLeftQ padRight
  constructor <;> nlinarith [ht0, ht1]

theorem spanOf_pos (vmin vmax : ℚ) (h : vmin ≤ vmax) : 0 < spanOf vmin vmax := by
  unfold spanOf
  split_ifs with h0
  · exact one_pos
  · have : vmin < vmax := lt_of_le_of_ne h (fun hc => h0 (by rw [hc, sub_self]))
    linarith

theorem yPos_bounds (vmin vmax v : ℚ) (h1 : vmin ≤ v) (h2 : v ≤ vmax) :
    padTop ≤ yPos vmin (spanOf vmin vmax) v ∧
      yPos vmin (spanOf vmin vmax) v ≤ chartHeight - padBottom := by
  have hs : 0 < spanOf vmin vmax := spanOf_pos vmin vmax (le_trans h1 h2)
  have hnum1 : v - vmin ≤ spanOf vmin vmax := by
    unfold spanOf
    split_ifs with h0
    · have hvv : vmax = vmin := by
        have := sub_eq_zero.mp h0
        linarith
      have : v ≤ vmin := by
        rw [← hvv]
        exact h2
      linarith
    · linarith
  have hu0 : (0 : ℚ) ≤ (v - vmin) / spanOf vmin vmax := div_nonneg (by linarith) hs.le
  have hu1 : (v - vmin) / spanOf vmin vmax ≤ 1 := (div_le_one hs).mpr hnum1
  unfold yPos innerHeight chartHeight padTop padBottom
  constructor <;> nlinarith [hu0, hu1]

theorem getD_mem_of_lt (l : List ℚ) {i : ℕ} (h : i < l.length) : l.getD i 0 ∈ l := by
  rw [List.getD_eq_getElem l 0 h]
  exact List.getElem_mem h

/-- C9: every drawn coordinate is a well-defined rational inside the fixed
drawing area — the divisors `Math.max(values.length - 1, 1)` and the floored
span are strictly positive, so the formulas are total even for a single-point
series: line points and bar tops lie in the padded inner box, bar heights lie
in `[0, innerHeight]`, and bar widths are positive. -/
theorem c9_coords_bounded (spec : ChartSpec) (view : ChartView)
    (h : miniChart spec = some view) :
    (∀ p ∈ view.pts, padLeftQ ≤ p.x ∧ p.x ≤ chartWidth - padRight ∧
      padTop ≤ p.y ∧ p.y ≤ chartHeight - padBottom) ∧
      (∀ b ∈ view.barRects, padLeftQ ≤ b.x ∧ b.x ≤ chartWidth - padRight ∧
        padTop ≤ b.y ∧ b.y ≤ chartHeight - padBottom ∧
        0 ≤ b.h ∧ b.h ≤ innerHeight ∧ 0 < b.w) := by
  obtain ⟨sr, hs, -, h2, rfl⟩ := (miniChart_eq_some_iff spec view).mp h
  have hne : finiteValues sr.values ≠ [] := fun hnil => h2 (by rw [hnil]; rfl)
  have hmin := listMinQ_spec (finiteValues sr.values) hne
  have hmax := listMaxQ_spec (finiteValues sr.values) hne
  constructor
  · intro p hp
    rw [buildView_pts] at hp
    obtain ⟨i, hir, rfl⟩ := List.mem_map.mp hp
    have hi : i < (finiteValues sr.values).length := List.mem_range.mp hir
    have hvmem : (finiteValues sr.values).getD i 0 ∈ finiteValues sr.values :=
      getD_mem_of_lt (finiteValues sr.values) hi
    have hx := xPos_bounds (finiteValues sr.values).length i hi
    have hy := yPos_bounds (listMinQ (finiteValues sr.values))
      (listMaxQ (finiteValues sr.values)) ((finiteValues sr.values).getD i 0)
      (hmin.2 _ hvmem) (hmax.2 _ hvmem)
    exact ⟨hx.1, hx.2, hy.1, hy.2⟩
  · intro b hb
    rw [buildView_barRects] at hb
    obtain ⟨i, hir, rfl⟩ := List.mem_map.mp hb
    have hi : i < (finiteValues sr.values).length := List.mem_range.mp hir
    have hvmem : (finiteValues sr.values).getD i 0 ∈ finiteValues sr.values :=
      getD_mem_of_lt (finiteValues sr.values) hi
    have hx := xPos_bounds (finiteValues sr.values).length i hi
    have hxeq : padLeftQ + (Nat.cast i : ℚ) * (innerWidth /
        ((max ((finiteValues sr.values).length - 1) 1 : ℕ) : ℚ)) =
        xPos (finiteValues sr.values).length i := by
      unfold xPos
      ring
    have hy := yPos_bounds (listMinQ (finiteValues sr.values))
      (listMaxQ (finiteValues sr.values)) ((finiteValues sr.values).getD i 0)
      (hmin.2 _ hvmem) (hmax.2 _ hvmem)
    have hw : 0 < innerWidth / qmax (((finiteValues sr.values).length : ℚ) * (7/5)) 1 := by
      apply div_pos
      · unfold innerWidth chartWidth padLeftQ padRight
        norm_num
      · rw [qmax_eq_max]
        exact lt_of_lt_of_le one_pos (le_max_right _ 1)
    refine ⟨?_, ?_, hy.1, hy.2, ?_, ?_, hw⟩
    · rw [hxeq]
      exact hx.1
    · rw [hxeq]
      exact hx.2
    · have := hy.2
      unfold chartHeight padBottom at *
      linarith
    · have := hy.1
      unfold innerHeight chartHeight padTop padBottom at *
      linarith

/-- C9 witness: the two-point line `[1, 3]` draws a first point, and that
point lies inside the drawing area. -/
theorem c9_witness :
    miniChart exChart9 = some exView9 ∧ 0 < exView9.pts.length ∧
      (padLeftQ ≤ (exView9.pts.getD 0 (Pt.mk 0 0)).x ∧
        (exView9.pts.getD 0 (Pt.mk 0 0)).x ≤ chartWidth - padRight ∧
        padTop ≤ (exView9.pts.getD 0 (Pt.mk 0 0)).y ∧
        (exView9.pts.getD 0 (Pt.mk 0 0)).y ≤ chartHeight - padBottom) := by
  have hlen : 0 < exView9.pts.length := by decide
  have hmem : exView9.pts.getD 0 (Pt.mk 0 0) ∈ exView9.pts := by
    rw [List.getD_eq_getElem exView9.pts (Pt.mk 0 0) hlen]
    exact List.getElem_mem hlen
  exact ⟨rfl, hlen, (c9_coords_bounded exChart9 exView9 rfl).1 _ hmem⟩

/-! ## C6: tick structure and number formatting -/

theorem tickStep_pos (n : ℕ) : 1 ≤ tickStep n := le_max_left 1 (ceilDiv4 n)

theorem stridedCount_pos (n s : ℕ) (hn : 1 ≤ n) (hs : 1 ≤ s) :
    1 ≤ stridedCount n s := by
  unfold stridedCount
  rw [Nat.le_div_iff_mul_le (by omega)]
  omega

theorem stridedCount_le_four (n : ℕ) (hn : 1 ≤ n) :
    stridedCount n (tickStep n) ≤ 4 := by
  unfold stridedCount tickStep ceilDiv4
  have hs1 : 1 ≤ max 1 ((n + 3) / 4) := le_max_left _ _
  have hs4 : (n + 3) / 4 ≤ max 1 ((n + 3) / 4) := le_max_right _ _
  have hn4 : n ≤ 4 * max 1 ((n + 3) / 4) := by omega
  have hlt := (Nat.div_lt_iff_lt_mul (show 0 < max 1 ((n + 3) / 4) by omega)).mpr
    (show n + max 1 ((n + 3) / 4) - 1 < 5 * max 1 ((n + 3) / 4) by omega)
  omega

theorem mul_tickStep_le (n s j : ℕ) (hn : 1 ≤ n) (hs : 1 ≤ s)
    (hj : j < stridedCount n s) : j * s ≤ n - 1 := by
  have h1 : stridedCount n s * s ≤ n + s - 1 := Nat.div_mul_le_self _ _
  calc j * s ≤ (stridedCount n s - 1) * s := Nat.mul_le_mul_right s (by omega)
  _ = stridedCount n s * s - 1 * s := by rw [Nat.sub_mul]
  _ ≤ (n + s - 1) - s := by
      rw [one_mul]
      exact Nat.sub_le_sub_right h1 s
  _ = n - 1 := by omega

theorem stridedBase_map_idx (xs : List String) :
    (stridedBase xs).map XTick.idx =
      (List.range (stridedCount xs.length (tickStep xs.length))).map
        (fun j => j * tickStep xs.length) := by
  unfold stridedBase
  rw [List.map_map]
  rfl

theorem stridedBase_getLast_idx (xs : List String) (hn : xs.length ≠ 0) :
    (stridedBase xs).getLast?.map XTick.idx =
      some ((stridedCount xs.length (tickStep xs.length) - 1) * tickStep xs.length) := by
  have hc1 : 1 ≤ stridedCount xs.length (tickStep xs.length) :=
    stridedCount_pos _ _ (by omega) (tickStep_pos _)
  unfold stridedBase
  rw [show stridedCount xs.length (tickStep xs.length) =
      (stridedCount xs.length (tickStep xs.length) - 1) + 1 from by omega,
    List.range_succ, List.map_append, List.map_singleton, List.getLast?_concat]
  rfl

theorem mem_stridedBase_idx (xs : List String) (i : ℕ) (hn : xs.length ≠ 0)
    (hi : i < xs.length) (hmod : i % tickStep xs.length = 0) :
    i ∈ (stridedBase xs).map XTick.idx := by
  have hs1 : 1 ≤ tickStep xs.length := tickStep_pos _
  rw [stridedBase_map_idx]
  refine List.mem_map.mpr ⟨i / tickStep xs.length, List.mem_range.mpr ?_, ?_⟩
  · have h1 : i / tickStep xs.length ≤ (xs.length - 1) / tickStep xs.length :=
      Nat.div_le_div_right (by omega)
    have h2 : stridedCount xs.length (tickStep xs.length) =
        (xs.length - 1) / tickStep xs.length + 1 := by
      unfold stridedCount
      rw [show xs.length + tickStep xs.length - 1 =
        (xs.length - 1) + tickStep xs.length from by omega,
        Nat.add_div_right _ (by omega)]
    omega
  · exact Nat.div_mul_cancel (Nat.dvd_of_mod_eq_zero hmod)

theorem stridedBase_idx_pairwise (xs : List String) :
    List.Pairwise (· < ·) ((stridedBase xs).map XTick.idx) := by
  rw [stridedBase_map_idx]
  exact (List.pairwise_lt_range _).map _
    (fun a b hab => Nat.mul_lt_mul_of_lt_of_le hab (le_refl _) (by
      have := tickStep_pos xs.length
      omega))

theorem stridedBase_length (xs : List String) :
    (stridedBase xs).length = stridedCount xs.length (tickStep xs.length) := by
  unfold stridedBase
  rw [List.length_map, List.length_range]

theorem xTicksOf_props (xs : List String) (hn : xs.length ≠ 0) :
    (xTicksOf xs).length ≤ 5 ∧
      List.Pairwise (· < ·) ((xTicksOf xs).map XTick.idx) ∧
      (xs.length - 1) ∈ (xTicksOf xs).map XTick.idx ∧
      (∀ t ∈ xTicksOf xs, t.idx < xs.length ∧
        (t.idx % tickStep xs.length = 0 ∨ t.idx = xs.length - 1) ∧
        t.label = xs.getD t.idx "" ∧ t.x = xPos xs.length t.idx) ∧
      (∀ i, i < xs.length → i % tickStep xs.length = 0 →
        i ∈ (xTicksOf xs).map XTick.idx) := by
  have hs1 : 1 ≤ tickStep xs.length := tickStep_pos _
  have hc1 : 1 ≤ stridedCount xs.length (tickStep xs.length) :=
    stridedCount_pos _ _ (by omega) hs1
  have hc4 : stridedCount xs.length (tickStep xs.length) ≤ 4 :=
    stridedCount_le_four _ (by omega)
  have hlast := stridedBase_getLast_idx xs hn
  have hbase_mem : ∀ t ∈ stridedBase xs, ∃ j,
      j < stridedCount xs.length (tickStep xs.length) ∧
      t = XTick.mk (j * tickStep xs.length)
        (xs.getD (j * tickStep xs.length) "")
        (xPos xs.length (j * tickStep xs.length)) := by
    intro t ht
    unfold stridedBase at ht
    obtain ⟨j, hj, rfl⟩ := List.mem_map.mp ht
    exact ⟨j, List.mem_range.mp hj, rfl⟩
  have hbase_spec : ∀ t ∈ stridedBase xs, t.idx < xs.length ∧
      (t.idx % tickStep xs.length = 0 ∨ t.idx = xs.length - 1) ∧
      t.label = xs.getD t.idx "" ∧ t.x = xPos xs.length t.idx := by
    intro t ht
    obtain ⟨j, hj, rfl⟩ := hbase_mem t ht
    have hle : j * tickStep xs.length ≤ xs.length - 1 :=
      mul_tickStep_le _ _ j (by omega) hs1 hj
    have hlt : j * tickStep xs.length < xs.length := by omega
    exact ⟨hlt, Or.inl (Nat.mul_mod_left j _), rfl, rfl⟩
  have hidx_le : ∀ a ∈ (stridedBase xs).map XTick.idx,
      a ≤ (stridedCount xs.length (tickStep xs.length) - 1) * tickStep xs.length := by
    intro a ha
    rw [stridedBase_map_idx] at ha
    obtain ⟨j, hj, rfl⟩ := List.mem_map.mp ha
    exact Nat.mul_le_mul_right _ (by
      have := List.mem_range.mp hj
      omega)
  unfold xTicksOf
  by_cases hif : ((stridedBase xs).getLast?.map XTick.idx) = some (xs.length - 1)
  · rw [if_pos hif]
    have hfin : (stridedCount xs.length (tickStep xs.length) - 1) * tickStep xs.length =
        xs.length - 1 := by
      rw [hlast] at hif
      exact Option.some_inj.mp hif
    refine ⟨?_, stridedBase_idx_pairwise xs, ?_, hbase_spec, ?_⟩
    · rw [stridedBase_length]
      omega
    · rw [← hfin, stridedBase_map_idx]
      exact List.mem_map.mpr ⟨_, List.mem_range.mpr (by omega), rfl⟩
    · intro i hi hmod
      exact mem_stridedBase_idx xs i hn hi hmod
  · rw [if_neg hif]
    have hfin : (stridedCount xs.length (tickStep xs.length) - 1) * tickStep xs.length ≠
        xs.length - 1 := by
      intro hc
      exact hif (by rw [hlast, hc])
    have hfin_lt : (stridedCount xs.length (tickStep xs.length) - 1) * tickStep xs.length <
        xs.length - 1 := by
      have hle : (stridedCount xs.length (tickStep xs.length) - 1) * tickStep xs.length ≤
          xs.length - 1 :=
        mul_tickStep_le _ _ _ (by omega) hs1 (by omega)
      omega
    have hmap : (stridedBase xs ++
        [XTick.mk (xs.length - 1) (xs.getD (xs.length - 1) "")
          (xPos xs.length (xs.length - 1))]).map XTick.idx =
        (stridedBase xs).map XTick.idx ++ [xs.length - 1] := by
      rw [List.map_append]
      rfl
    refine ⟨?_, ?_, ?_, ?_, ?_⟩
    · rw [List.length_append, stridedBase_length]
      simp only [List.length_singleton]
      omega
    · rw [hmap]
      rw [List.pairwise_append]
      refine ⟨stridedBase_idx_pairwise xs, List.pairwise_singleton _ _, ?_⟩
      intro a ha b hb
      rw [List.mem_singleton] at hb
      subst hb
      have := hidx_le a ha
      show a < xs.length - 1
      omega
    · rw [hmap]
      exact List.mem_append_right _ (List.mem_singleton.mpr rfl)
    · intro t ht
      rcases List.mem_append.mp ht with ht' | ht'
      · exact hbase_spec t ht'
      · rw [List.mem_singleton] at ht'
        subst ht'
        have hlt : xs.length - 1 < xs.length := by omega
        exact ⟨hlt, Or.inr rfl, rfl, rfl⟩
    · intro i hi hmod
      rw [hmap]
      exact List.mem_append_left _ (mem_stridedBase_idx xs i hn hi hmod)

theorem ordinalLabels_length (n : ℕ) : (ordinalLabels n).length = n := by
  unfold ordinalLabels
  rw [List.length_map, List.length_range]

theorem buildView_xLabels_length (c : ChartSpec) (sr : SeriesSpec) :
    (buildView c sr).xLabels.length = (finiteValues sr.values).length := by
  cases hl : c.labels with
  | none =>
    rw [buildView_xLabels_none c sr hl]
    exact ordinalLabels_length _
  | some ls =>
    rw [buildView_xLabels_some c sr ls hl]
    by_cases hlen : ls.length = (finiteValues sr.values).length
    · rw [if_pos hlen]
      exact hlen
    · rw [if_neg hlen]
      exact ordinalLabels_length _

/-- C6 counterexample: the billions branch formats `2e9` as `"2.0b"` with a
lowercase `b` suffix — not the claimed uppercase `B` (and likewise `m`, not
`M`, for millions). -/
theorem c6_counterexample :
    formatNumber 2000000000 = "2.0b" ∧ formatNumber 2000000000 ≠ "2.0B" := by
  have h : formatNumber 2000000000 = "2.0b" := by
    unfold formatNumber
    rw [if_pos (show |(2000000000 : ℚ)| ≥ 1000000000 from by norm_num)]
    rw [show (2000000000 : ℚ) / 1000000000 = 2 from by norm_num]
    have h1 : roundHalfUp (|(2 : ℚ)| * (10 : ℚ) ^ (1 : ℕ)) = 20 := by
      unfold roundHalfUp
      norm_num
    unfold toFixedQ
    rw [h1]
    decide
  refine ⟨h, ?_⟩
  rw [h]
  decide

/-- C6 (amended): for every drawn chart the x-axis tick indices are strictly
increasing, number at most 5 (up to 4 strided ticks plus the final label),
consist exactly of the multiples of the stride `max(1, ceil(n/4))` below `n`
together with the final index `n-1` (always included), and carry the label
and x-position of their index; and `formatNumber` formats a value `v` by
first match on |v|: ≥ 1e9 → 1e-9-scaled, 1 decimal, **lowercase** `b`
suffix; ≥ 1e6 → 1e-6-scaled, 1 decimal, lowercase `m`; ≥ 1e3 → 1e-3-scaled,
1 decimal, `k`; ≥ 100 → integer; ≥ 1 → 2 decimals; else 2 significant
digits (the claim's uppercase `B`/`M` suffixes are corrected to lowercase,
see the counterexample). -/
theorem c6_ticks_and_format :
    (∀ spec view, miniChart spec = some view →
      (view.xTicks = xTicksOf view.xLabels ∧
        view.xTicks.length ≤ 5 ∧
        List.Pairwise (· < ·) (view.xTicks.map XTick.idx) ∧
        (view.xLabels.length - 1) ∈ view.xTicks.map XTick.idx ∧
        (∀ t ∈ view.xTicks, t.idx < view.xLabels.length ∧
          (t.idx % tickStep view.xLabels.length = 0 ∨
            t.idx = view.xLabels.length - 1) ∧
          t.label = view.xLabels.getD t.idx "" ∧
          t.x = xPos view.xLabels.length t.idx) ∧
        (∀ i, i < view.xLabels.length → i % tickStep view.xLabels.length = 0 →
          i ∈ view.xTicks.map XTick.idx))) ∧
      (∀ v : ℚ,
        (1000000000 ≤ |v| → formatNumber v = toFixedQ 1 (v / 1000000000) ++ "b") ∧
        (1000000 ≤ |v| → |v| < 1000000000 →
          formatNumber v = toFixedQ 1 (v / 1000000) ++ "m") ∧
        (1000 ≤ |v| → |v| < 1000000 →
          formatNumber v = toFixedQ 1 (v / 1000) ++ "k") ∧
        (100 ≤ |v| → |v| < 1000 → formatNumber v = toFixedQ 0 v) ∧
        (1 ≤ |v| → |v| < 100 → formatNumber v = toFixedQ 2 v) ∧
        (|v| < 1 → formatNumber v = toPrecision2 v)) := by
  constructor
  · intro spec view h
    obtain ⟨sr, hs, -, h2, rfl⟩ := (miniChart_eq_some_iff spec view).mp h
    have hn : (buildView spec sr).xLabels.length ≠ 0 := by
      rw [buildView_xLabels_length]
      exact h2
    have hprops := xTicksOf_props (buildView spec sr).xLabels hn
    rw [buildView_xTicks]
    exact ⟨rfl, hprops.1, hprops.2.1, hprops.2.2.1, hprops.2.2.2.1, hprops.2.2.2.2⟩
  · intro v
    refine ⟨?_, ?_, ?_, ?_, ?_, ?_⟩
    · intro h1
      unfold formatNumber
      rw [if_pos h1]
    · intro h1 h2
      unfold formatNumber
      rw [if_neg (not_le.mpr h2), if_pos h1]
    · intro h1 h2
      unfold formatNumber
      rw [if_neg (not_le.mpr (lt_of_lt_of_le h2 (by norm_num))),
        if_neg (not_le.mpr h2), if_pos h1]
    · intro h1 h2
      unfold formatNumber
      rw [if_neg (not_le.mpr (lt_of_lt_of_le h2 (by norm_num))),
        if_neg (not_le.mpr (lt_of_lt_of_le h2 (by norm_num))),
        if_neg (not_le.mpr h2), if_pos h1]
    · intro h1 h2
      unfold formatNumber
      rw [if_neg (not_le.mpr (lt_of_lt_of_le h2 (by norm_num))),
        if_neg (not_le.mpr (lt_of_lt_of_le h2 (by norm_num))),
        if_neg (not_le.mpr (lt_of_lt_of_le h2 (by norm_num))),
        if_neg (not_le.mpr h2), if_pos h1]
    · intro h1
      unfold formatNumber
      rw [if_neg (not_le.mpr (lt_of_lt_of_le h1 (by norm_num))),
        if_neg (not_le.mpr (lt_of_lt_of_le h1 (by norm_num))),
        if_neg (not_le.mpr (lt_of_lt_of_le h1 (by norm_num))),
        if_neg (not_le.mpr (lt_of_lt_of_le h1 (by norm_num))),
        if_neg (not_le.mpr h1)]

/-- C6 witness: the six-label chart always includes its final label index
among the ticks, and `1234` is formatted through the `k` branch. -/
theorem c6_witness :
    (miniChart exChart6 = some exView6 ∧
      (exView6.xLabels.length - 1) ∈ exView6.xTicks.map XTick.idx) ∧
      (1000 ≤ |(1234 : ℚ)| ∧ |(1234 : ℚ)| < 1000000 ∧
        formatNumber 1234 = toFixedQ 1 ((1234 : ℚ) / 1000) ++ "k") :=
  ⟨⟨rfl, (c6_ticks_and_format.1 exChart6 exView6 rfl).2.2.2.1⟩,
    ⟨by norm_num, by norm_num,
      (c6_ticks_and_format.2 1234).2.2.1 (by norm_num) (by norm_num)⟩⟩

end AutoResearcher
